import Mathlib

/-!
Verification development for the strudel-flow real-time sync core.

The embedding covers:
- a CRDT document model standing for the Yjs `Y.Doc` used by the backend
  (three top-level maps `nodes`, `edges`, `metadata`; updates are byte
  sequences that either decode to a list of map operations or are malformed);
- the Room Actor (`ProjectDurableObject` in `apps/backend/src/project-do.ts`)
  as a state machine over attached websocket connections, durable storage and
  the persistence alarm;
- the invite / membership database layer
  (`apps/backend/src/services/project-service.ts`) and the public join route
  (`apps/backend/src/routes/public-projects.ts`);
- the client sync session hook (`useYjsSync`) with its read-only gating
  (`apps/frontend/src/components/editor.tsx` and the hook file).
-/

namespace StrudelFlow

/-! ### Yjs document model

`Y.Doc` as used by the Room Actor: three top-level maps keyed by opaque ids
(abstracted as `Nat`), values abstracted as `Nat`.  An update (the binary
payload of `Y.encodeStateAsUpdate` / argument of `Y.applyUpdate`) is a byte
sequence encoding a list of map operations; malformed bytes fail to decode,
which models `Y.applyUpdate` throwing. -/

abbrev YMap := List (Nat × Nat)

structure YDoc where
  nodes : YMap
  edges : YMap
  metadata : YMap
deriving DecidableEq, Repr

def YDoc.empty : YDoc := ⟨[], [], []⟩

def setKey (m : YMap) (k v : Nat) : YMap :=
  if m.any (fun p => p.1 == k) then
    m.map (fun p => if p.1 == k then (k, v) else p)
  else m ++ [(k, v)]

def delKey (m : YMap) (k : Nat) : YMap :=
  m.filter (fun p => p.1 != k)

def getKey (m : YMap) (k : Nat) : Option Nat :=
  (m.find? (fun p => p.1 == k)).map Prod.snd

inductive YOp where
  | set (c : Fin 3) (k v : Nat)
  | del (c : Fin 3) (k : Nat)
deriving DecidableEq, Repr

def mapAt (d : YDoc) (c : Fin 3) : YMap :=
  match c with
  | ⟨0, _⟩ => d.nodes
  | ⟨1, _⟩ => d.edges
  | ⟨2, _⟩ => d.metadata

def setMapAt (d : YDoc) (c : Fin 3) (m : YMap) : YDoc :=
  match c with
  | ⟨0, _⟩ => { d with nodes := m }
  | ⟨1, _⟩ => { d with edges := m }
  | ⟨2, _⟩ => { d with metadata := m }

def applyOp (d : YDoc) : YOp → YDoc
  | .set c k v => setMapAt d c (setKey (mapAt d c) k v)
  | .del c k => setMapAt d c (delKey (mapAt d c) k)

def applyOps (d : YDoc) (l : List YOp) : YDoc := l.foldl applyOp d

abbrev Bytes := List Nat

def encodeOp : YOp → Bytes
  | .set c k v => [0, c.val, k, v]
  | .del c k => [1, c.val, k]

def encodeOps (l : List YOp) : Bytes := l.flatMap encodeOp

def decodeOps : Bytes → Option (List YOp)
  | [] => some []
  | 0 :: c :: k :: v :: rest =>
    if h : c < 3 then (decodeOps rest).map (fun l => YOp.set ⟨c, h⟩ k v :: l) else none
  | 1 :: c :: k :: rest =>
    if h : c < 3 then (decodeOps rest).map (fun l => YOp.del ⟨c, h⟩ k :: l) else none
  | _ => none

def stateOps (d : YDoc) : List YOp :=
  d.nodes.map (fun p => YOp.set 0 p.1 p.2) ++
    d.edges.map (fun p => YOp.set 1 p.1 p.2) ++
    d.metadata.map (fun p => YOp.set 2 p.1 p.2)

def Y.encodeStateAsUpdate (d : YDoc) : Bytes := encodeOps (stateOps d)

def Y.applyUpdate (d : YDoc) (b : Bytes) : Option YDoc :=
  (decodeOps b).map (applyOps d)

def YDoc.WF (d : YDoc) : Prop :=
  (d.nodes.map Prod.fst).Nodup ∧ (d.edges.map Prod.fst).Nodup ∧
    (d.metadata.map Prod.fst).Nodup

instance (d : YDoc) : Decidable d.WF := by
  unfold YDoc.WF
  infer_instance

/-! Round-trip lemmas for the codec and the full-state serialization. -/

def foldSet (acc : YMap) (m : YMap) : YMap :=
  m.foldl (fun a p => setKey a p.1 p.2) acc

/-! ### Room Actor (ProjectDurableObject, apps/backend/src/project-do.ts)

State machine over the fields of the durable object: the in-memory `Y.Doc`,
durable storage (key `doc`), the snapshot alarm, the runtime set of accepted
websockets (`ctx.getWebSockets()`) including what bytes were sent on each,
and the `clients` bookkeeping map.  Each websocket is identified by a fresh
`Nat`; `sent` records the frames written to that socket, in order. -/

structure ConnInfo where
  clientId : String
  userId : Option String
  userName : Option String
deriving DecidableEq, Repr

structure Conn where
  info : ConnInfo
  isOpen : Bool
  sent : List Bytes
deriving DecidableEq, Repr

structure DOState where
  doc : YDoc
  storage : Option Bytes
  alarmAt : Option Nat
  conns : List (Nat × Conn)
  clients : List (Nat × ConnInfo)
  nextWs : Nat
deriving DecidableEq, Repr

def SNAPSHOT_INTERVAL_MS : Nat := 60000

inductive HWResult where
  | badRequest
  | accepted (ws : Nat)
deriving DecidableEq, Repr

def hwStatus : HWResult → Nat
  | .badRequest => 400
  | .accepted _ => 101

def handleWebSocket (s : DOState) (clientId userId userName : Option String) :
    HWResult × DOState :=
  match clientId with
  | none => (.badRequest, s)
  | some cid =>
    let info : ConnInfo := ⟨cid, userId, userName⟩
    let ws := s.nextWs
    (.accepted ws,
      { s with
        conns := s.conns ++ [(ws, ⟨info, true, [Y.encodeStateAsUpdate s.doc]⟩)]
        clients := s.clients ++ [(ws, info)]
        nextWs := ws + 1 })

def broadcast (s : DOState) (b : Bytes) (exclude : Option Nat) : DOState :=
  { s with conns := s.conns.map (fun pc =>
      if exclude = some pc.1 then pc
      else if pc.2.isOpen then (pc.1, { pc.2 with sent := pc.2.sent ++ [b] })
      else pc) }

inductive Msg where
  | text (str : String)
  | bin (b : Bytes)
deriving DecidableEq, Repr

def webSocketMessage (s : DOState) (ws : Nat) (m : Msg) : DOState :=
  match m with
  | .text _ => s
  | .bin b =>
    match Y.applyUpdate s.doc b with
    | none => s
    | some d => broadcast { s with doc := d } b (some ws)

def alarm (s : DOState) (now : Nat) : DOState :=
  { s with
    storage := some (Y.encodeStateAsUpdate s.doc)
    alarmAt := some (now + SNAPSHOT_INTERVAL_MS) }

def clearProject (d : YDoc) (pid : Nat) : YDoc :=
  applyOp (applyOp (applyOp d (.del 0 pid)) (.del 1 pid)) (.del 2 pid)

def deleteProjectDO (s : DOState) (pid : Nat) : DOState :=
  let d := clearProject s.doc pid
  let b := Y.encodeStateAsUpdate d
  let s1 := broadcast { s with doc := d } b none
  { s1 with storage := some b }

def detach (s : DOState) (ws : Nat) : DOState :=
  { s with
    clients := s.clients.filter (fun pc => pc.1 != ws)
    conns := s.conns.map (fun pc =>
      if pc.1 = ws then (pc.1, { pc.2 with isOpen := false }) else pc) }

def construct (storage : Option Bytes) (existingAlarm : Option Nat) (now : Nat)
    (hibernated : List (Nat × ConnInfo)) : Option DOState :=
  match (match storage with
         | none => some YDoc.empty
         | some b => Y.applyUpdate YDoc.empty b) with
  | none => none
  | some d =>
    some { doc := d
           storage := storage
           alarmAt := match existingAlarm with
                      | none => some (now + SNAPSHOT_INTERVAL_MS)
                      | some t => some t
           conns := hibernated.map (fun p => (p.1, ⟨p.2, true, []⟩))
           clients := hibernated
           nextWs := hibernated.foldl (fun a p => Nat.max a (p.1 + 1)) 0 }

inductive Event where
  | attach (clientId userId userName : Option String)
  | message (ws : Nat) (m : Msg)
  | alarmFire (now : Nat)
  | close (ws : Nat)
  | socketError (ws : Nat)
  | deleteSignal (pid : Nat)
deriving DecidableEq, Repr

def step (s : DOState) : Event → DOState
  | .attach cid uid uname => (handleWebSocket s cid uid uname).2
  | .message ws m => webSocketMessage s ws m
  | .alarmFire now => alarm s now
  | .close ws => detach s ws
  | .socketError ws => detach s ws
  | .deleteSignal pid => deleteProjectDO s pid

def run (s : DOState) (es : List Event) : DOState := es.foldl step s

/-! Monotonicity of per-connection sent frames: no step ever removes or
reorders frames already written to an attached websocket; it can only append. -/

/-! ### Invite and membership layer

Database rows and queries from `apps/backend/src/services/project-service.ts`
(the drizzle queries are embedded as list operations over a database value;
select-where becomes `filter`, `rows[0]` becomes `head?`), plus the public
join route `GET /projects/join/:token` from
`apps/backend/src/routes/public-projects.ts`. -/

structure Project where
  id : String
  ownerId : String
  organizationId : Option String
deriving DecidableEq, Repr

structure Invite where
  id : String
  projectId : String
  token : String
  role : String
  createdBy : String
  expiresAt : Option Nat
  maxUses : Option Nat
  uses : Nat
deriving DecidableEq, Repr

structure Member where
  projectId : String
  userId : String
  role : String
deriving DecidableEq, Repr

structure OrgMember where
  userId : String
  organizationId : String
deriving DecidableEq, Repr

structure DB where
  projects : List Project
  invites : List Invite
  members : List Member
  orgMembers : List OrgMember
deriving DecidableEq, Repr

def getProject (db : DB) (pid : String) : Option Project :=
  (db.projects.filter (fun p => p.id == pid)).head?

def getInviteByToken (db : DB) (tok : String) : Option Invite :=
  (db.invites.filter (fun i => i.token == tok)).head?

def isOrganizationMember (db : DB) (uid orgId : String) : Bool :=
  db.orgMembers.any (fun m => m.userId == uid && m.organizationId == orgId)

inductive Access where
  | allowed (role : String)
  | denied (reason : String)
deriving DecidableEq, Repr

def Access.isAllowed : Access → Bool
  | .allowed _ => true
  | .denied _ => false

def memberAccess (db : DB) (pid uid : String) : Access :=
  match (db.members.filter (fun m => m.projectId == pid && m.userId == uid)).head? with
  | some m => .allowed m.role
  | none => .denied "No access"

def checkAccess (db : DB) (pid uid : String) : Access :=
  match getProject db pid with
  | none => .denied "Project not found"
  | some p =>
    if p.ownerId == uid then .allowed "owner"
    else
      match p.organizationId with
      | some orgId =>
        if isOrganizationMember db uid orgId then .allowed "editor"
        else memberAccess db pid uid
      | none => memberAccess db pid uid

def joinProject (db : DB) (pid uid role : String) : DB :=
  { db with members := db.members ++ [⟨pid, uid, role⟩] }

def DAY_MS : Nat := 24 * 60 * 60 * 1000

def createInvite (db : DB) (pid createdBy role : String) (now : Nat)
    (newId newToken : String) : DB :=
  { db with invites :=
      (db.invites.filter (fun i => !(i.projectId == pid && i.role == role))) ++
        [⟨newId, pid, newToken, role, createdBy, some (now + DAY_MS), none, 0⟩] }

def inviteIsExpired (inv : Invite) (now : Nat) : Bool :=
  match inv.expiresAt with
  | some e => e < now
  | none => false

def inviteUsedUp (inv : Invite) : Bool :=
  match inv.maxUses with
  | some m => m ≤ inv.uses
  | none => false

inductive RedeemResult where
  | inviteNotFound
  | inviteExpired
  | inviteAlreadyUsed
  | projectNotFound
  | redirect (projectId : String)
deriving DecidableEq, Repr

def redeemStatus : RedeemResult → Nat
  | .inviteNotFound => 404
  | .inviteExpired => 410
  | .inviteAlreadyUsed => 409
  | .projectNotFound => 404
  | .redirect _ => 302

def bumpUses (db : DB) (inviteId : String) (newUses : Nat) : DB :=
  { db with invites := db.invites.map (fun i =>
      if i.id == inviteId then { i with uses := newUses } else i) }

def redeemInvite (db : DB) (tok uid : String) (now : Nat) : RedeemResult × DB :=
  match getInviteByToken db tok with
  | none => (.inviteNotFound, db)
  | some invite =>
    if inviteIsExpired invite now then (.inviteExpired, db)
    else if inviteUsedUp invite then (.inviteAlreadyUsed, db)
    else
      let db1 :=
        if (checkAccess db invite.projectId uid).isAllowed then db
        else bumpUses (joinProject db invite.projectId uid invite.role)
          invite.id (invite.uses + 1)
      match getProject db1 invite.projectId with
      | none => (.projectNotFound, db1)
      | some p => (.redirect p.id, db1)

/-! ### Client sync session (useYjsSync, frontend)

The hook keeps the local React Flow state (abstracted here as two opaque
numbers for nodes and edges), a re-entrancy guard ref `syncToYjsRef`, and
pushes outbound state to the Yjs client through `setState`.  The outbound
effect body is, in order: bail if not connected, bail if `isReadOnly`, bail
and reset the guard if the last change came from a remote update, otherwise
send.  A remote update (the client `onUpdate` callback) sets the guard and
overwrites the local state; the effect then runs on the changed state. -/

structure SyncSession where
  isReadOnlyFlag : Bool
  connected : Bool
  localNodes : Nat
  localEdges : Nat
  syncToYjs : Bool
  outbound : List (Nat × Nat)
deriving DecidableEq, Repr

def editorIsReadOnly (accessRole : Option String) : Bool :=
  accessRole == some "viewer"

def runSyncEffect (s : SyncSession) : SyncSession :=
  if !s.connected then s
  else if s.isReadOnlyFlag then s
  else if s.syncToYjs then { s with syncToYjs := false }
  else { s with outbound := s.outbound ++ [(s.localNodes, s.localEdges)] }

inductive SessionEvent where
  | remoteUpdate (n e : Nat)
  | localEdit (n e : Nat)
deriving DecidableEq, Repr

def sessionStep (s : SyncSession) : SessionEvent → SyncSession
  | .remoteUpdate n e =>
    runSyncEffect { s with syncToYjs := true, localNodes := n, localEdges := e }
  | .localEdit n e =>
    runSyncEffect { s with localNodes := n, localEdges := e }

def runSession (s : SyncSession) (es : List SessionEvent) : SyncSession :=
  es.foldl sessionStep s

def dbSample : DB :=
  ⟨[⟨"p1", "ow", none⟩],
   [⟨"i1", "p1", "t1", "editor", "ow", some 100, none, 0⟩],
   [], []⟩

/-! ### Helper lemmas -/

theorem decodeOps_encodeOps (l : List YOp) : decodeOps (encodeOps l) = some l := by
  induction l with
  | nil => rfl
  | cons op rest ih =>
    cases op with
    | set c k v =>
      show decodeOps (0 :: c.val :: k :: v :: encodeOps rest) = _
      rw [decodeOps]
      simp [c.isLt, ih, Fin.eta]
    | del c k =>
      show decodeOps (1 :: c.val :: k :: encodeOps rest) = _
      rw [decodeOps]
      simp [c.isLt, ih, Fin.eta]

theorem mapAt_setMapAt_same (d : YDoc) (c : Fin 3) (m : YMap) :
    mapAt (setMapAt d c m) c = m := by
  fin_cases c <;> rfl

theorem setMapAt_setMapAt (d : YDoc) (c : Fin 3) (m1 m2 : YMap) :
    setMapAt (setMapAt d c m1) c m2 = setMapAt d c m2 := by
  fin_cases c <;> rfl

theorem setMapAt_mapAt (d : YDoc) (c : Fin 3) :
    setMapAt d c (mapAt d c) = d := by
  fin_cases c <;> rfl

theorem applyOps_setList (c : Fin 3) (m : YMap) (d : YDoc) :
    applyOps d (m.map (fun p => YOp.set c p.1 p.2)) =
      setMapAt d c (foldSet (mapAt d c) m) := by
  induction m generalizing d with
  | nil => simp [applyOps, foldSet, setMapAt_mapAt]
  | cons p rest ih =>
    show applyOps (applyOp d (.set c p.1 p.2)) (rest.map _) = _
    rw [ih]
    simp [applyOp, foldSet, mapAt_setMapAt_same, setMapAt_setMapAt]

theorem setKey_of_not_mem (m : YMap) (k v : Nat) (h : k ∉ m.map Prod.fst) :
    setKey m k v = m ++ [(k, v)] := by
  unfold setKey
  rw [if_neg]
  simp only [List.any_eq_true, beq_iff_eq, not_exists, not_and]
  intro p hp hpk
  exact h (hpk ▸ List.mem_map_of_mem Prod.fst hp)

theorem foldSet_fresh (m : YMap) : ∀ acc : YMap, (m.map Prod.fst).Nodup →
    (∀ k ∈ m.map Prod.fst, k ∉ acc.map Prod.fst) → foldSet acc m = acc ++ m := by
  induction m with
  | nil =>
    intro acc _ _
    simp [foldSet]
  | cons p rest ih =>
    intro acc hm hdisj
    have hk : p.1 ∉ acc.map Prod.fst := hdisj p.1 (by simp)
    have hrestnd : (rest.map Prod.fst).Nodup := (List.nodup_cons.mp hm).2
    have hknot : p.1 ∉ rest.map Prod.fst := (List.nodup_cons.mp hm).1
    show foldSet (setKey acc p.1 p.2) rest = _
    rw [setKey_of_not_mem acc p.1 p.2 hk]
    rw [ih (acc ++ [(p.1, p.2)]) hrestnd ?_]
    · simp
    · intro k hkrest
      simp only [List.map_append, List.mem_append]
      rintro (hacc | hsingle)
      · exact hdisj k (by simp [hkrest]) hacc
      · simp only [List.map_cons, List.map_nil, List.mem_singleton] at hsingle
        exact hknot (hsingle ▸ hkrest)

theorem mapAt_zero (d : YDoc) : mapAt d 0 = d.nodes := rfl

theorem mapAt_one (d : YDoc) : mapAt d 1 = d.edges := rfl

theorem mapAt_two (d : YDoc) : mapAt d 2 = d.metadata := rfl

theorem setMapAt_zero (d : YDoc) (m : YMap) : setMapAt d 0 m = { d with nodes := m } := rfl

theorem setMapAt_one (d : YDoc) (m : YMap) : setMapAt d 1 m = { d with edges := m } := rfl

theorem setMapAt_two (d : YDoc) (m : YMap) : setMapAt d 2 m = { d with metadata := m } := rfl

theorem applyOps_stateOps (d : YDoc) (h : d.WF) :
    applyOps YDoc.empty (stateOps d) = d := by
  obtain ⟨h0, h1, h2⟩ := h
  unfold stateOps
  unfold applyOps
  rw [List.foldl_append, List.foldl_append]
  show applyOps (applyOps (applyOps YDoc.empty _) _) _ = d
  rw [applyOps_setList, applyOps_setList, applyOps_setList]
  simp only [mapAt_zero, mapAt_one, mapAt_two, setMapAt_zero, setMapAt_one, setMapAt_two,
    YDoc.empty]
  rw [foldSet_fresh d.nodes [] h0 (by simp), foldSet_fresh d.edges [] h1 (by simp),
    foldSet_fresh d.metadata [] h2 (by simp)]
  simp

theorem applyUpdate_empty_encodeState (d : YDoc) (h : d.WF) :
    Y.applyUpdate YDoc.empty (Y.encodeStateAsUpdate d) = some d := by
  unfold Y.applyUpdate Y.encodeStateAsUpdate
  rw [decodeOps_encodeOps]
  simp [applyOps_stateOps d h]

theorem broadcast_sent_mono (s : DOState) (b : Bytes) (ex : Option Nat)
    (id : Nat) (c : Conn) (h : (id, c) ∈ s.conns) :
    ∃ c2 t, (id, c2) ∈ (broadcast s b ex).conns ∧ c2.sent = c.sent ++ t := by
  unfold broadcast
  by_cases hex : ex = some id
  · refine ⟨c, [], ?_, by simp⟩
    simp only [List.mem_map]
    exact ⟨(id, c), h, by simp [hex]⟩
  · by_cases hop : c.isOpen = true
    · refine ⟨{ c with sent := c.sent ++ [b] }, [b], ?_, rfl⟩
      simp only [List.mem_map]
      exact ⟨(id, c), h, by simp [hex, hop]⟩
    · refine ⟨c, [], ?_, by simp⟩
      simp only [List.mem_map]
      exact ⟨(id, c), h, by simp [hex, hop]⟩

theorem step_sent_mono (s : DOState) (e : Event) (id : Nat) (c : Conn)
    (h : (id, c) ∈ s.conns) :
    ∃ c2 t, (id, c2) ∈ (step s e).conns ∧ c2.sent = c.sent ++ t := by
  cases e with
  | attach cid uid uname =>
    cases cid with
    | none => exact ⟨c, [], h, by simp⟩
    | some cid =>
      refine ⟨c, [], ?_, by simp⟩
      show (id, c) ∈ s.conns ++ _
      exact List.mem_append_left _ h
  | message ws m =>
    cases m with
    | text str => exact ⟨c, [], h, by simp⟩
    | bin b =>
      have hred : step s (.message ws (.bin b)) =
          match Y.applyUpdate s.doc b with
          | none => s
          | some d => broadcast { s with doc := d } b (some ws) := rfl
      rw [hred]
      cases hdec : Y.applyUpdate s.doc b with
      | none => exact ⟨c, [], h, by simp⟩
      | some d => exact broadcast_sent_mono { s with doc := d } b (some ws) id c h
  | alarmFire now => exact ⟨c, [], h, by simp⟩
  | close ws =>
    by_cases hws : id = ws
    · refine ⟨{ c with isOpen := false }, [], ?_, by simp⟩
      show _ ∈ (detach s ws).conns
      unfold detach
      simp only [List.mem_map]
      exact ⟨(id, c), h, by simp [hws]⟩
    · refine ⟨c, [], ?_, by simp⟩
      show _ ∈ (detach s ws).conns
      unfold detach
      simp only [List.mem_map]
      exact ⟨(id, c), h, by simp [hws]⟩
  | socketError ws =>
    by_cases hws : id = ws
    · refine ⟨{ c with isOpen := false }, [], ?_, by simp⟩
      show _ ∈ (detach s ws).conns
      unfold detach
      simp only [List.mem_map]
      exact ⟨(id, c), h, by simp [hws]⟩
    · refine ⟨c, [], ?_, by simp⟩
      show _ ∈ (detach s ws).conns
      unfold detach
      simp only [List.mem_map]
      exact ⟨(id, c), h, by simp [hws]⟩
  | deleteSignal pid =>
    show ∃ c2 t, (id, c2) ∈ (deleteProjectDO s pid).conns ∧ _
    unfold deleteProjectDO
    obtain ⟨c2, t, hmem, hsent⟩ :=
      broadcast_sent_mono { s with doc := clearProject s.doc pid }
        (Y.encodeStateAsUpdate (clearProject s.doc pid)) none id c h
    exact ⟨c2, t, hmem, hsent⟩

theorem run_sent_mono (es : List Event) : ∀ (s : DOState) (id : Nat) (c : Conn),
    (id, c) ∈ s.conns →
    ∃ c2 t, (id, c2) ∈ (run s es).conns ∧ c2.sent = c.sent ++ t := by
  induction es with
  | nil =>
    intro s id c h
    exact ⟨c, [], h, by simp⟩
  | cons e rest ih =>
    intro s id c h
    obtain ⟨c1, t1, h1, hs1⟩ := step_sent_mono s e id c h
    obtain ⟨c2, t2, h2, hs2⟩ := ih (step s e) id c1 h1
    exact ⟨c2, t1 ++ t2, h2, by rw [hs2, hs1, List.append_assoc]⟩

theorem getKey_delKey (m : YMap) (k : Nat) : getKey (delKey m k) k = none := by
  unfold getKey delKey
  have : (m.filter (fun p => p.1 != k)).find? (fun p => p.1 == k) = none := by
    rw [List.find?_eq_none]
    intro p hp
    have := (List.mem_filter.mp hp).2
    simpa using this
  rw [this]
  rfl

theorem construct_of_applyUpdate (b : Bytes) (d : YDoc) (now : Nat)
    (h : Y.applyUpdate YDoc.empty b = some d) :
    construct (some b) none now [] =
      some ⟨d, some b, some (now + SNAPSHOT_INTERVAL_MS), [], [], 0⟩ := by
  simp only [construct]
  rw [h]
  rfl

/-- C1: when the persistence alarm fires (even with no deltas applied since
start) the Room Actor writes the full Replica serialization as the Snapshot
and reschedules the alarm one interval later; constructing a fresh actor for
the same document id from that storage succeeds and reproduces the saved
Replica state (this includes the empty-but-initialized Replica, exercised by
the witness below). -/
theorem C1_snapshot_roundtrip (s : DOState) (t1 t2 : Nat) (hwf : s.doc.WF) :
    (alarm s t1).storage = some (Y.encodeStateAsUpdate s.doc) ∧
    (alarm s t1).alarmAt = some (t1 + SNAPSHOT_INTERVAL_MS) ∧
    construct (alarm s t1).storage none t2 [] =
      some ⟨s.doc, some (Y.encodeStateAsUpdate s.doc),
        some (t2 + SNAPSHOT_INTERVAL_MS), [], [], 0⟩ := by
  refine ⟨rfl, rfl, ?_⟩
  exact construct_of_applyUpdate _ s.doc t2 (applyUpdate_empty_encodeState s.doc hwf)

/-- C1 witness: the alarm fires on the freshly started actor (empty Replica,
no deltas ever applied); a snapshot is still written and a restart recovers
the empty-but-initialized Replica rather than failing. -/
theorem C1_snapshot_roundtrip_witness :
    (alarm ⟨YDoc.empty, none, none, [], [], 0⟩ 100).storage =
      some (Y.encodeStateAsUpdate YDoc.empty) ∧
    (alarm ⟨YDoc.empty, none, none, [], [], 0⟩ 100).alarmAt = some (100 + SNAPSHOT_INTERVAL_MS) ∧
    construct (alarm ⟨YDoc.empty, none, none, [], [], 0⟩ 100).storage none 250 [] =
      some ⟨YDoc.empty, some (Y.encodeStateAsUpdate YDoc.empty),
        some (250 + SNAPSHOT_INTERVAL_MS), [], [], 0⟩ :=
  C1_snapshot_roundtrip ⟨YDoc.empty, none, none, [], [], 0⟩ 100 250 (by decide)

/-- C2: for every Connection that attaches to the Room Actor, the upgrade is
accepted, the very first frame queued on the new socket is the full
serialization of the current Replica (never a delta), and after any further
sequence of events the first frame on that socket is still that full-state
frame - so the full state is delivered before any delta frame on that
Connection. -/
theorem C2_first_frame_full_state (s : DOState) (cid : String)
    (uid uname : Option String) (es : List Event) :
    (handleWebSocket s (some cid) uid uname).1 = .accepted s.nextWs ∧
    (s.nextWs, (⟨⟨cid, uid, uname⟩, true, [Y.encodeStateAsUpdate s.doc]⟩ : Conn)) ∈
      (handleWebSocket s (some cid) uid uname).2.conns ∧
    ∃ c, (s.nextWs, c) ∈ (run (handleWebSocket s (some cid) uid uname).2 es).conns ∧
      c.sent.head? = some (Y.encodeStateAsUpdate s.doc) := by
  have hmem0 : (s.nextWs, (⟨⟨cid, uid, uname⟩, true, [Y.encodeStateAsUpdate s.doc]⟩ : Conn)) ∈
      (handleWebSocket s (some cid) uid uname).2.conns := by
    show _ ∈ s.conns ++ [_]
    simp
  refine ⟨rfl, hmem0, ?_⟩
  obtain ⟨c2, t, hmem, hsent⟩ := run_sent_mono es (handleWebSocket s (some cid) uid uname).2
    s.nextWs ⟨⟨cid, uid, uname⟩, true, [Y.encodeStateAsUpdate s.doc]⟩ hmem0
  refine ⟨c2, hmem, ?_⟩
  rw [hsent]
  rfl

/-- C3: a well-formed binary delta received from an attached Connection is
applied to the Replica, the identical bytes are appended to the outgoing
frames of every other attached open Connection, and the originating
Connection is left untouched (echo suppression). -/
theorem C3_delta_applied_and_rebroadcast (s : DOState) (ws : Nat) (b : Bytes)
    (ops : List YOp) (hdec : decodeOps b = some ops) :
    (webSocketMessage s ws (.bin b)).doc = applyOps s.doc ops ∧
    (∀ id c, (id, c) ∈ s.conns → id ≠ ws → c.isOpen = true →
      (id, { c with sent := c.sent ++ [b] }) ∈ (webSocketMessage s ws (.bin b)).conns) ∧
    (∀ c, (ws, c) ∈ s.conns → (ws, c) ∈ (webSocketMessage s ws (.bin b)).conns) := by
  have happ : Y.applyUpdate s.doc b = some (applyOps s.doc ops) := by
    unfold Y.applyUpdate
    rw [hdec]
    rfl
  have hred : webSocketMessage s ws (.bin b) =
      broadcast { s with doc := applyOps s.doc ops } b (some ws) := by
    have h0 : webSocketMessage s ws (.bin b) =
        match Y.applyUpdate s.doc b with
        | none => s
        | some d => broadcast { s with doc := d } b (some ws) := rfl
    rw [h0, happ]
  refine ⟨by rw [hred]; rfl, ?_, ?_⟩
  · intro id c hmem hne hop
    rw [hred]
    show _ ∈ (broadcast _ b (some ws)).conns
    unfold broadcast
    simp only [List.mem_map]
    refine ⟨(id, c), hmem, ?_⟩
    simp [Ne.symm hne, hop]
  · intro c hmem
    rw [hred]
    show _ ∈ (broadcast _ b (some ws)).conns
    unfold broadcast
    simp only [List.mem_map]
    exact ⟨(ws, c), hmem, by simp⟩

/-- C3 witness: in a room with sender socket 0 and peer socket 1, the delta
bytes [0,0,1,2] (a set operation on the nodes map) are applied to the doc,
forwarded verbatim to socket 1, and not echoed to socket 0. -/
theorem C3_delta_applied_and_rebroadcast_witness :
    (webSocketMessage
        ⟨YDoc.empty, none, none,
          [(0, ⟨⟨"a", none, none⟩, true, []⟩), (1, ⟨⟨"b", none, none⟩, true, []⟩)],
          [], 2⟩ 0 (.bin [0, 0, 1, 2])).doc =
      applyOps YDoc.empty [YOp.set 0 1 2] ∧
    (1, (⟨⟨"b", none, none⟩, true, [[0, 0, 1, 2]]⟩ : Conn)) ∈
      (webSocketMessage
        ⟨YDoc.empty, none, none,
          [(0, ⟨⟨"a", none, none⟩, true, []⟩), (1, ⟨⟨"b", none, none⟩, true, []⟩)],
          [], 2⟩ 0 (.bin [0, 0, 1, 2])).conns ∧
    (0, (⟨⟨"a", none, none⟩, true, []⟩ : Conn)) ∈
      (webSocketMessage
        ⟨YDoc.empty, none, none,
          [(0, ⟨⟨"a", none, none⟩, true, []⟩), (1, ⟨⟨"b", none, none⟩, true, []⟩)],
          [], 2⟩ 0 (.bin [0, 0, 1, 2])).conns := by
  obtain ⟨h1, h2, h3⟩ := C3_delta_applied_and_rebroadcast
    ⟨YDoc.empty, none, none,
      [(0, ⟨⟨"a", none, none⟩, true, []⟩), (1, ⟨⟨"b", none, none⟩, true, []⟩)],
      [], 2⟩ 0 [0, 0, 1, 2] [YOp.set 0 1 2] (by decide)
  refine ⟨h1, ?_, ?_⟩
  · have := h2 1 ⟨⟨"b", none, none⟩, true, []⟩ (by simp) (by decide) rfl
    simpa using this
  · exact h3 ⟨⟨"a", none, none⟩, true, []⟩ (by simp)

/-- C8: malformed delta bytes received on a Connection are dropped: the actor
state is completely unchanged (the sender stays attached and open, nothing is
broadcast, the Replica is untouched) and every subsequent event is processed
exactly as if the malformed message had never arrived. -/
theorem C8_malformed_delta_dropped (s : DOState) (ws : Nat) (b : Bytes)
    (hmal : decodeOps b = none) (es : List Event) :
    webSocketMessage s ws (.bin b) = s ∧
    run s (Event.message ws (.bin b) :: es) = run s es := by
  have h1 : webSocketMessage s ws (.bin b) = s := by
    have h0 : webSocketMessage s ws (.bin b) =
        match Y.applyUpdate s.doc b with
        | none => s
        | some d => broadcast { s with doc := d } b (some ws) := rfl
    rw [h0]
    unfold Y.applyUpdate
    rw [hmal]
    rfl
  refine ⟨h1, ?_⟩
  show run (step s (Event.message ws (.bin b))) es = run s es
  rw [show step s (Event.message ws (.bin b)) = s from h1]

/-- C8 witness: the byte sequence [2] decodes to no update; the room with one
attached Connection is left exactly as it was. -/
theorem C8_malformed_delta_dropped_witness :
    webSocketMessage
        ⟨YDoc.empty, none, none, [(0, ⟨⟨"a", none, none⟩, true, []⟩)], [], 1⟩
        0 (.bin [2]) =
      ⟨YDoc.empty, none, none, [(0, ⟨⟨"a", none, none⟩, true, []⟩)], [], 1⟩ ∧
    run ⟨YDoc.empty, none, none, [(0, ⟨⟨"a", none, none⟩, true, []⟩)], [], 1⟩
        [Event.message 0 (.bin [2]), Event.alarmFire 7] =
      run ⟨YDoc.empty, none, none, [(0, ⟨⟨"a", none, none⟩, true, []⟩)], [], 1⟩
        [Event.alarmFire 7] :=
  C8_malformed_delta_dropped
    ⟨YDoc.empty, none, none, [(0, ⟨⟨"a", none, none⟩, true, []⟩)], [], 1⟩
    0 [2] (by decide) [Event.alarmFire 7]

/-- C9: on the explicit delete signal the Room Actor removes the project key
from the nodes, edges and metadata collections in a single state transition,
broadcasts the resulting cleared full-state update to every attached open
Connection, and writes the cleared Snapshot to durable storage immediately. -/
theorem C9_delete_clears_broadcasts_persists (s : DOState) (pid : Nat) :
    getKey (deleteProjectDO s pid).doc.nodes pid = none ∧
    getKey (deleteProjectDO s pid).doc.edges pid = none ∧
    getKey (deleteProjectDO s pid).doc.metadata pid = none ∧
    (deleteProjectDO s pid).doc = clearProject s.doc pid ∧
    (deleteProjectDO s pid).storage =
      some (Y.encodeStateAsUpdate (clearProject s.doc pid)) ∧
    (∀ id c, (id, c) ∈ s.conns → c.isOpen = true →
      (id, { c with sent :=
          c.sent ++ [Y.encodeStateAsUpdate (clearProject s.doc pid)] }) ∈
        (deleteProjectDO s pid).conns) := by
  refine ⟨?_, ?_, ?_, rfl, rfl, ?_⟩
  · exact getKey_delKey s.doc.nodes pid
  · exact getKey_delKey s.doc.edges pid
  · exact getKey_delKey s.doc.metadata pid
  · intro id c hmem hop
    show _ ∈ (broadcast _ _ none).conns
    unfold broadcast
    simp only [List.mem_map]
    refine ⟨(id, c), hmem, ?_⟩
    simp [hop]

/-- C9 witness: deleting project 5 from a doc holding entries for key 5 in
all three collections clears them, persists the cleared snapshot at once, and
appends the cleared full-state frame to the attached open Connection. -/
theorem C9_delete_clears_broadcasts_persists_witness :
    getKey (deleteProjectDO
        ⟨⟨[(5, 1)], [(5, 2)], [(5, 3)]⟩, none, none,
          [(0, ⟨⟨"a", none, none⟩, true, []⟩)], [], 1⟩ 5).doc.nodes 5 = none ∧
    (deleteProjectDO
        ⟨⟨[(5, 1)], [(5, 2)], [(5, 3)]⟩, none, none,
          [(0, ⟨⟨"a", none, none⟩, true, []⟩)], [], 1⟩ 5).storage =
      some (Y.encodeStateAsUpdate (clearProject ⟨[(5, 1)], [(5, 2)], [(5, 3)]⟩ 5)) ∧
    (0, (⟨⟨"a", none, none⟩, true,
        [Y.encodeStateAsUpdate (clearProject ⟨[(5, 1)], [(5, 2)], [(5, 3)]⟩ 5)]⟩ : Conn)) ∈
      (deleteProjectDO
        ⟨⟨[(5, 1)], [(5, 2)], [(5, 3)]⟩, none, none,
          [(0, ⟨⟨"a", none, none⟩, true, []⟩)], [], 1⟩ 5).conns := by
  obtain ⟨h1, _, _, _, h5, h6⟩ := C9_delete_clears_broadcasts_persists
    ⟨⟨[(5, 1)], [(5, 2)], [(5, 3)]⟩, none, none,
      [(0, ⟨⟨"a", none, none⟩, true, []⟩)], [], 1⟩ 5
  refine ⟨h1, h5, ?_⟩
  have := h6 0 ⟨⟨"a", none, none⟩, true, []⟩ (by simp) rfl
  simpa using this

/-- C10: a WebSocket upgrade request without a clientId query parameter is
rejected with HTTP 400 before any socket is accepted: the returned state is
untouched, so no Connection is registered in the client map and no full-state
frame is sent. -/
theorem C10_missing_clientId_rejected (s : DOState) (uid uname : Option String) :
    handleWebSocket s none uid uname = (.badRequest, s) ∧
    hwStatus (handleWebSocket s none uid uname).1 = 400 :=
  ⟨rfl, rfl⟩

theorem runSyncEffect_readonly (s : SyncSession) (h : s.isReadOnlyFlag = true) :
    runSyncEffect s = s := by
  unfold runSyncEffect
  cases hc : s.connected <;> simp [h, hc]

theorem sessionStep_readonly (s : SyncSession) (ev : SessionEvent)
    (h : s.isReadOnlyFlag = true) :
    (sessionStep s ev).outbound = s.outbound ∧
    (sessionStep s ev).isReadOnlyFlag = true := by
  cases ev with
  | remoteUpdate n e =>
    constructor
    · show (runSyncEffect
          { s with syncToYjs := true, localNodes := n, localEdges := e }).outbound = _
      rw [runSyncEffect_readonly
        { s with syncToYjs := true, localNodes := n, localEdges := e } h]
    · show (runSyncEffect
          { s with syncToYjs := true, localNodes := n, localEdges := e }).isReadOnlyFlag = true
      rw [runSyncEffect_readonly
        { s with syncToYjs := true, localNodes := n, localEdges := e } h]
      exact h
  | localEdit n e =>
    constructor
    · show (runSyncEffect { s with localNodes := n, localEdges := e }).outbound = _
      rw [runSyncEffect_readonly { s with localNodes := n, localEdges := e } h]
    · show (runSyncEffect { s with localNodes := n, localEdges := e }).isReadOnlyFlag = true
      rw [runSyncEffect_readonly { s with localNodes := n, localEdges := e } h]
      exact h

theorem runSession_readonly (es : List SessionEvent) : ∀ s : SyncSession,
    s.isReadOnlyFlag = true → (runSession s es).outbound = s.outbound := by
  induction es with
  | nil =>
    intro s _
    rfl
  | cons ev rest ih =>
    intro s h
    obtain ⟨ho, hf⟩ := sessionStep_readonly s ev h
    show (runSession (sessionStep s ev) rest).outbound = s.outbound
    rw [ih (sessionStep s ev) hf, ho]

/-- C7: a sync session whose resolved role is viewer (the editor component
passes isReadOnly = (accessRole == "viewer") to useYjsSync) still applies
every inbound remote update to the local state, but over any sequence of
remote updates and local edits it never pushes a single outbound state to the
Yjs client, so a viewer edit can never surface as a delta at another attached
session. -/
theorem C7_viewer_suppresses_outbound (s : SyncSession) (es : List SessionEvent)
    (n e : Nat) (h : s.isReadOnlyFlag = editorIsReadOnly (some "viewer")) :
    (runSession s es).outbound = s.outbound ∧
    (sessionStep s (.remoteUpdate n e)).localNodes = n ∧
    (sessionStep s (.remoteUpdate n e)).localEdges = e := by
  have ht : s.isReadOnlyFlag = true := by rw [h]; rfl
  refine ⟨runSession_readonly es s ht, ?_, ?_⟩
  · show (runSyncEffect { s with syncToYjs := true, localNodes := n, localEdges := e }).localNodes
        = n
    rw [runSyncEffect_readonly
      { s with syncToYjs := true, localNodes := n, localEdges := e } ht]
  · show (runSyncEffect { s with syncToYjs := true, localNodes := n, localEdges := e }).localEdges
        = e
    rw [runSyncEffect_readonly
      { s with syncToYjs := true, localNodes := n, localEdges := e } ht]

/-- C7 witness: a connected viewer session performs a local edit and then
receives a remote update; no outbound state is ever pushed, while the remote
update is applied locally. -/
theorem C7_viewer_suppresses_outbound_witness :
    (runSession ⟨true, true, 0, 0, false, []⟩ [SessionEvent.localEdit 5 6]).outbound = [] ∧
    (sessionStep ⟨true, true, 0, 0, false, []⟩ (.remoteUpdate 7 8)).localNodes = 7 ∧
    (sessionStep ⟨true, true, 0, 0, false, []⟩ (.remoteUpdate 7 8)).localEdges = 8 :=
  C7_viewer_suppresses_outbound ⟨true, true, 0, 0, false, []⟩
    [SessionEvent.localEdit 5 6] 7 8 (by decide)

/-- C4: redeeming an invite fails with InviteNotFound (HTTP 404) when no
invite row matches the token, with InviteExpired (HTTP 410) when
expiresAt < now - checked before the use count, so it fires even when
uses < maxUses - and with InviteAlreadyUsed (HTTP 409) when maxUses is set
and uses has reached it; in each failure case the returned database is the
input database unchanged, so no membership row is created and uses is not
incremented. -/
theorem C4_redeem_failure_cases (db : DB) (tok uid : String) (now : Nat) :
    (getInviteByToken db tok = none →
      redeemInvite db tok uid now = (.inviteNotFound, db)) ∧
    (∀ inv e, getInviteByToken db tok = some inv → inv.expiresAt = some e →
      e < now → redeemInvite db tok uid now = (.inviteExpired, db)) ∧
    (∀ inv m, getInviteByToken db tok = some inv → inviteIsExpired inv now = false →
      inv.maxUses = some m → m ≤ inv.uses →
      redeemInvite db tok uid now = (.inviteAlreadyUsed, db)) ∧
    redeemStatus .inviteNotFound = 404 ∧ redeemStatus .inviteExpired = 410 ∧
    redeemStatus .inviteAlreadyUsed = 409 := by
  refine ⟨?_, ?_, ?_, rfl, rfl, rfl⟩
  · intro h
    unfold redeemInvite
    rw [h]
  · intro inv e hf he hlt
    have hexp : inviteIsExpired inv now = true := by
      unfold inviteIsExpired
      rw [he]
      simpa using hlt
    unfold redeemInvite
    rw [hf]
    simp [hexp]
  · intro inv m hf hexp hmax huse
    have hup : inviteUsedUp inv = true := by
      unfold inviteUsedUp
      rw [hmax]
      simpa using huse
    unfold redeemInvite
    rw [hf]
    simp [hexp, hup]

/-- C4 witness: concrete databases exercising all three failure cases - a
token with no invite, an expired invite that still has uses left, and an
unexpired invite whose maxUses is exhausted; each returns the matching error
and the unchanged database. -/
theorem C4_redeem_failure_cases_witness :
    redeemInvite ⟨[], [], [], []⟩ "t" "u" 5 = (.inviteNotFound, ⟨[], [], [], []⟩) ∧
    redeemInvite ⟨[], [⟨"i1", "p1", "t1", "editor", "o", some 10, some 3, 0⟩], [], []⟩
        "t1" "u" 20 =
      (.inviteExpired, ⟨[], [⟨"i1", "p1", "t1", "editor", "o", some 10, some 3, 0⟩], [], []⟩) ∧
    redeemInvite ⟨[], [⟨"i2", "p1", "t2", "editor", "o", some 99, some 1, 1⟩], [], []⟩
        "t2" "u" 20 =
      (.inviteAlreadyUsed,
        ⟨[], [⟨"i2", "p1", "t2", "editor", "o", some 99, some 1, 1⟩], [], []⟩) := by
  refine ⟨?_, ?_, ?_⟩
  · exact (C4_redeem_failure_cases ⟨[], [], [], []⟩ "t" "u" 5).1 (by decide)
  · exact (C4_redeem_failure_cases
      ⟨[], [⟨"i1", "p1", "t1", "editor", "o", some 10, some 3, 0⟩], [], []⟩ "t1" "u" 20).2.1
      ⟨"i1", "p1", "t1", "editor", "o", some 10, some 3, 0⟩ 10 (by decide) rfl (by decide)
  · exact (C4_redeem_failure_cases
      ⟨[], [⟨"i2", "p1", "t2", "editor", "o", some 99, some 1, 1⟩], [], []⟩ "t2" "u" 20).2.2.1
      ⟨"i2", "p1", "t2", "editor", "o", some 99, some 1, 1⟩ 1 (by decide) rfl rfl (by decide)

theorem getInviteByToken_bumpUses (db : DB) (tok iid : String) (u : Nat) :
    getInviteByToken (bumpUses db iid u) tok =
      (getInviteByToken db tok).map
        (fun i => if i.id == iid then { i with uses := u } else i) := by
  unfold getInviteByToken bumpUses
  rw [List.filter_map, List.head?_map]
  have hfc : db.invites.filter
      ((fun i => i.token == tok) ∘ (fun i => if i.id == iid then { i with uses := u } else i)) =
      db.invites.filter (fun i => i.token == tok) := by
    apply List.filter_congr
    intro i _
    by_cases hid : (i.id == iid) = true <;> simp [Function.comp, hid]
  rw [hfc]

theorem memberAccess_allowed_of_mem (db : DB) (pid uid r : String)
    (hr : (⟨pid, uid, r⟩ : Member) ∈ db.members) :
    (memberAccess db pid uid).isAllowed = true := by
  unfold memberAccess
  cases hh : (db.members.filter (fun m => m.projectId == pid && m.userId == uid)).head? with
  | some m => rfl
  | none =>
    exfalso
    have hnil : db.members.filter (fun m => m.projectId == pid && m.userId == uid) = [] :=
      List.head?_eq_none_iff.mp hh
    have hmem : (⟨pid, uid, r⟩ : Member) ∈
        db.members.filter (fun m => m.projectId == pid && m.userId == uid) :=
      List.mem_filter.mpr ⟨hr, by simp⟩
    rw [hnil] at hmem
    exact absurd hmem (List.not_mem_nil _)

theorem checkAccess_allowed_of_member (db : DB) (pid uid : String) (p : Project)
    (hp : getProject db pid = some p) (r : String)
    (hr : (⟨pid, uid, r⟩ : Member) ∈ db.members) :
    (checkAccess db pid uid).isAllowed = true := by
  unfold checkAccess
  rw [hp]
  by_cases ho : (p.ownerId == uid) = true
  · simp [ho, Access.isAllowed]
  · cases horg : p.organizationId with
    | some orgId =>
      by_cases hom : isOrganizationMember db uid orgId = true
      · simp [ho, horg, hom, Access.isAllowed]
      · simp only [ho, horg, hom, Bool.false_eq_true, if_false]
        exact memberAccess_allowed_of_mem db pid uid r hr
    | none =>
      simp only [ho, horg, Bool.false_eq_true, if_false]
      exact memberAccess_allowed_of_mem db pid uid r hr

theorem redeemInvite_snd_of_allowed (db : DB) (tok uid : String) (now2 : Nat)
    (inv : Invite) (hf : getInviteByToken db tok = some inv)
    (hacc : (checkAccess db inv.projectId uid).isAllowed = true) :
    (redeemInvite db tok uid now2).2 = db := by
  unfold redeemInvite
  rw [hf]
  by_cases hexp : inviteIsExpired inv now2 = true
  · simp [hexp]
  · by_cases hup : inviteUsedUp inv = true
    · simp [hexp, hup]
    · simp only [hexp, hup, hacc, Bool.false_eq_true, if_false, if_true]
      cases hgp : getProject db inv.projectId <;> simp [hgp]

/-- C5: with a valid (found, unexpired, not used-up) invite for an existing
project: if the redeeming user has no existing access, redemption creates
exactly one membership row carrying the invite role and bumps the invite's
uses counter by exactly one, returning the redirect; if the user already has
access (owner, organization member, or existing member all make checkAccess
allowed), redemption is a no-op on the database and still succeeds with the
redirect; and redeeming the same token again as the same user never changes
the database a second time, so the invite is consumed at most once per
(invite, user) pair. -/
theorem C5_redeem_success (db : DB) (tok uid : String) (now : Nat) (inv : Invite)
    (p : Project)
    (hf : getInviteByToken db tok = some inv)
    (hexp : inviteIsExpired inv now = false)
    (hup : inviteUsedUp inv = false)
    (hproj : getProject db inv.projectId = some p) :
    ((checkAccess db inv.projectId uid).isAllowed = false →
      redeemInvite db tok uid now =
        (.redirect p.id,
          bumpUses (joinProject db inv.projectId uid inv.role) inv.id (inv.uses + 1)) ∧
      (redeemInvite db tok uid now).2.members =
        db.members ++ [⟨inv.projectId, uid, inv.role⟩] ∧
      getInviteByToken (redeemInvite db tok uid now).2 tok =
        some { inv with uses := inv.uses + 1 }) ∧
    ((checkAccess db inv.projectId uid).isAllowed = true →
      redeemInvite db tok uid now = (.redirect p.id, db)) ∧
    (∀ now2, (redeemInvite (redeemInvite db tok uid now).2 tok uid now2).2 =
      (redeemInvite db tok uid now).2) := by
  have hexpf : ¬ inviteIsExpired inv now = true := by simp [hexp]
  have hupf : ¬ inviteUsedUp inv = true := by simp [hup]
  have hjoin : ∀ hacc : (checkAccess db inv.projectId uid).isAllowed = false,
      redeemInvite db tok uid now =
        (.redirect p.id,
          bumpUses (joinProject db inv.projectId uid inv.role) inv.id (inv.uses + 1)) := by
    intro hacc
    have hgp2 : getProject
        (bumpUses (joinProject db inv.projectId uid inv.role) inv.id (inv.uses + 1))
        inv.projectId = some p := hproj
    unfold redeemInvite
    rw [hf]
    simp [hexpf, hupf, hacc, hgp2]
  have hstay : ∀ hacc : (checkAccess db inv.projectId uid).isAllowed = true,
      redeemInvite db tok uid now = (.redirect p.id, db) := by
    intro hacc
    unfold redeemInvite
    rw [hf]
    simp [hexpf, hupf, hacc, hproj]
  have hbumped : getInviteByToken
      (bumpUses (joinProject db inv.projectId uid inv.role) inv.id (inv.uses + 1)) tok =
      some { inv with uses := inv.uses + 1 } := by
    rw [getInviteByToken_bumpUses]
    rw [show getInviteByToken (joinProject db inv.projectId uid inv.role) tok = some inv
      from hf]
    simp
  refine ⟨?_, hstay, ?_⟩
  · intro hacc
    refine ⟨hjoin hacc, ?_, ?_⟩
    · rw [hjoin hacc]
      rfl
    · rw [hjoin hacc]
      exact hbumped
  · intro now2
    by_cases hacc : (checkAccess db inv.projectId uid).isAllowed = true
    · rw [hstay hacc]
      exact redeemInvite_snd_of_allowed db tok uid now2 inv hf hacc
    · have haccf : (checkAccess db inv.projectId uid).isAllowed = false := by
        cases hv : (checkAccess db inv.projectId uid).isAllowed
        · rfl
        · exact absurd hv hacc
      rw [hjoin haccf]
      have hacc2 : (checkAccess
          (bumpUses (joinProject db inv.projectId uid inv.role) inv.id (inv.uses + 1))
          ({ inv with uses := inv.uses + 1 } : Invite).projectId uid).isAllowed = true := by
        show (checkAccess
          (bumpUses (joinProject db inv.projectId uid inv.role) inv.id (inv.uses + 1))
          inv.projectId uid).isAllowed = true
        refine checkAccess_allowed_of_member _ inv.projectId uid p hproj inv.role ?_
        show (⟨inv.projectId, uid, inv.role⟩ : Member) ∈
          db.members ++ [⟨inv.projectId, uid, inv.role⟩]
        simp
      exact redeemInvite_snd_of_allowed
        (bumpUses (joinProject db inv.projectId uid inv.role) inv.id (inv.uses + 1))
        tok uid now2 { inv with uses := inv.uses + 1 } hbumped hacc2

/-- C5 witness: user u1 (no prior access) redeems invite i1 on project p1:
one membership row at the invite role appears, uses goes from 0 to 1, the
response is the redirect, and a second redemption leaves the database
unchanged. -/
theorem C5_redeem_success_witness :
    redeemInvite dbSample "t1" "u1" 5 =
      (.redirect "p1", bumpUses (joinProject dbSample "p1" "u1" "editor") "i1" 1) ∧
    (redeemInvite dbSample "t1" "u1" 5).2.members = [⟨"p1", "u1", "editor"⟩] ∧
    getInviteByToken (redeemInvite dbSample "t1" "u1" 5).2 "t1" =
      some ⟨"i1", "p1", "t1", "editor", "ow", some 100, none, 1⟩ ∧
    (redeemInvite (redeemInvite dbSample "t1" "u1" 5).2 "t1" "u1" 6).2 =
      (redeemInvite dbSample "t1" "u1" 5).2 := by
  obtain ⟨h1, _, h3⟩ := C5_redeem_success dbSample "t1" "u1" 5
    ⟨"i1", "p1", "t1", "editor", "ow", some 100, none, 0⟩ ⟨"p1", "ow", none⟩
    (by decide) (by decide) (by decide) (by decide)
  obtain ⟨ha, hb, hc⟩ := h1 (by decide)
  exact ⟨ha, hb, hc, h3 6⟩

/-- C6: creating an invite for a (project, role) pair first deletes every
existing invite for that pair and then inserts a fresh one whose expiry is
24 hours (DAY_MS) after creation; consequently the previous token no longer
matches any invite - looking it up yields nothing and redeeming it returns
InviteNotFound - while the new token resolves to the new invite, and the new
invite is the only one left for that (project, role) pair. -/
theorem C6_createInvite_invalidates_previous (db : DB) (pid creator role : String)
    (now : Nat) (newId newTok oldTok uid : String) (now2 : Nat)
    (hold : ∀ i ∈ db.invites, i.token = oldTok → i.projectId = pid ∧ i.role = role)
    (hfresh : ∀ i ∈ db.invites, i.token ≠ newTok)
    (hne : oldTok ≠ newTok) :
    getInviteByToken (createInvite db pid creator role now newId newTok) oldTok = none ∧
    (redeemInvite (createInvite db pid creator role now newId newTok) oldTok uid now2).1 =
      .inviteNotFound ∧
    getInviteByToken (createInvite db pid creator role now newId newTok) newTok =
      some ⟨newId, pid, newTok, role, creator, some (now + DAY_MS), none, 0⟩ ∧
    (∀ i ∈ (createInvite db pid creator role now newId newTok).invites,
      i.projectId = pid → i.role = role → i.token = newTok) := by
  have hA : ∀ i ∈ db.invites.filter (fun i => !(i.projectId == pid && i.role == role)),
      ¬ (i.token == oldTok) = true := by
    intro i hi htok
    obtain ⟨hmem, hpred⟩ := List.mem_filter.mp hi
    obtain ⟨hp, hr⟩ := hold i hmem (by simpa using htok)
    simp [hp, hr] at hpred
  have hAnew : ∀ i ∈ db.invites.filter (fun i => !(i.projectId == pid && i.role == role)),
      ¬ (i.token == newTok) = true := by
    intro i hi htok
    exact hfresh i (List.mem_filter.mp hi).1 (by simpa using htok)
  have hfo : getInviteByToken (createInvite db pid creator role now newId newTok) oldTok
      = none := by
    unfold getInviteByToken createInvite
    rw [List.filter_append, List.filter_eq_nil_iff.mpr hA]
    simp [Ne.symm hne]
  refine ⟨hfo, ?_, ?_, ?_⟩
  · unfold redeemInvite
    rw [hfo]
  · unfold getInviteByToken createInvite
    rw [List.filter_append, List.filter_eq_nil_iff.mpr hAnew]
    simp
  · intro i hi hp hr
    rcases List.mem_append.mp hi with hiA | hiNew
    · obtain ⟨hmem, hpred⟩ := List.mem_filter.mp hiA
      simp [hp, hr] at hpred
    · have : i = ⟨newId, pid, newTok, role, creator, some (now + DAY_MS), none, 0⟩ := by
        simpa using hiNew
      rw [this]

/-- C6 witness: after creating a second editor invite (token t2) for project
p1, the first token t1 matches nothing, redeeming t1 returns InviteNotFound,
and t2 resolves to the fresh invite expiring 24 hours after creation. -/
theorem C6_createInvite_invalidates_previous_witness :
    getInviteByToken (createInvite dbSample "p1" "ow" "editor" 200 "i2" "t2") "t1" = none ∧
    (redeemInvite (createInvite dbSample "p1" "ow" "editor" 200 "i2" "t2") "t1" "u" 300).1 =
      .inviteNotFound ∧
    getInviteByToken (createInvite dbSample "p1" "ow" "editor" 200 "i2" "t2") "t2" =
      some ⟨"i2", "p1", "t2", "editor", "ow", some (200 + DAY_MS), none, 0⟩ := by
  obtain ⟨h1, h2, h3, _⟩ := C6_createInvite_invalidates_previous dbSample "p1" "ow" "editor"
    200 "i2" "t2" "t1" "u" 300 (by decide) (by decide) (by decide)
  exact ⟨h1, h2, h3⟩

end StrudelFlow
